import Mathlib

/-!
Shallow embedding of the A/B-test statistics utilities (scripts/util.py).

Numbers are modelled as rationals.  Python division, which raises
`ZeroDivisionError` on a zero denominator (or yields NaN/inf under numpy),
is modelled by `safeDiv`, returning `none` on a zero denominator.  The
external scipy routines (`scs.norm().ppf`, `scs.norm().sf`) and `np.sqrt`
are modelled as abstract function parameters `ppf`, `sf`, `sqrt`; the
stdlib `random.shuffle` is modelled as an oracle `shuffle : ℕ → List ℕ → List ℕ`
giving the permutation used at each loop iteration.
-/

namespace ABTest

/-- Division as Python performs it: `none` when the denominator is zero. -/
def safeDiv (a b : ℚ) : Option ℚ :=
  if b = 0 then none else some (a / b)

/-- `pooled_prob(N_A, N_B, X_A, X_B)`: `(X_A + X_B) / (N_A + N_B)`. -/
def pooled_prob (N_A N_B X_A X_B : ℚ) : Option ℚ :=
  safeDiv (X_A + X_B) (N_A + N_B)

/-- `pooled_SE(N_A, N_B, X_A, X_B)`: `sqrt(p_hat * (1 - p_hat) * (1/N_A + 1/N_B))`
where `p_hat = pooled_prob(N_A, N_B, X_A, X_B)`; `sqrt` abstracts `np.sqrt`. -/
def pooled_SE (sqrt : ℚ → ℚ) (N_A N_B X_A X_B : ℚ) : Option ℚ :=
  (pooled_prob N_A N_B X_A X_B).bind fun p_hat =>
  (safeDiv 1 N_A).bind fun iA =>
  (safeDiv 1 N_B).bind fun iB =>
  some (sqrt (p_hat * (1 - p_hat) * (iA + iB)))

/-- `z_val(sig_level, two_tailed)`: the standard-normal quantile (`ppf`
abstracting `scs.norm().ppf`) at area `1 - sig_level/2` (two-tailed) or
`1 - sig_level` (one-tailed). -/
def z_val (ppf : ℚ → ℚ) (sig_level : ℚ) (two_tailed : Bool) : ℚ :=
  if two_tailed then ppf (1 - sig_level / 2) else ppf (1 - sig_level)

/-- A scipy frozen normal distribution `scs.norm(mean, std)`, reduced to its
two defining parameters. -/
structure NormDist where
  mean : ℚ
  std : ℚ
deriving DecidableEq

/-- `ab_dist(stderr, d_hat, group_type)`: mean `0` for `"control"`, mean
`d_hat` for `"test"`; any other `group_type` leaves `sample_mean` unbound and
the call fails (`NameError`), modelled as `none`. -/
def ab_dist (stderr : ℚ) (d_hat : ℚ) (group_type : String) : Option NormDist :=
  if group_type = "control" then some ⟨0, stderr⟩
  else if group_type = "test" then some ⟨d_hat, stderr⟩
  else none

/-- The first `min_sample_size` definition (util.py lines 66-99), shadowed by
the later one. -/
def min_sample_size' (ppf : ℚ → ℚ) (bcr mde power sig_level : ℚ) : Option ℚ :=
  let Z_beta := ppf power
  let Z_alpha := ppf (1 - sig_level / 2)
  let pooled_p := (bcr + bcr + mde) / 2
  safeDiv (2 * pooled_p * (1 - pooled_p) * (Z_beta + Z_alpha) ^ 2) (mde ^ 2)

/-- The second, shadowing `min_sample_size` definition (util.py lines 110-116). -/
def min_sample_size (ppf : ℚ → ℚ) (bcr mde power sig_level : ℚ) : Option ℚ :=
  let Z_beta := ppf power
  let Z_alpha := ppf (1 - sig_level / 2)
  let pooled_p := (bcr + bcr + mde) / 2
  safeDiv (2 * pooled_p * (1 - pooled_p) * (Z_beta + Z_alpha) ^ 2) (mde ^ 2)

/-- `p_val(N_A, N_B, p_A, d_hat)`: z-score of the difference, fed to the
standard-normal survival function (`sf` abstracting `scs.norm().sf`). -/
def p_val (sqrt sf : ℚ → ℚ) (N_A N_B p_A d_hat : ℚ) : Option ℚ :=
  (safeDiv (p_A * (1 - p_A)) N_A).bind fun a =>
  (safeDiv ((p_A + d_hat) * (1 - (p_A + d_hat))) N_B).bind fun b =>
  (safeDiv d_hat (sqrt (sqrt a ^ 2 + sqrt b ^ 2))).bind fun z =>
  some (sf z)

/-- One loop iteration's `series_item` before the shuffle:
`success * [1] + (engagment - success) * [0]` (Python list repetition with a
negative count gives `[]`, as does truncated ℕ subtraction). -/
def bernouli_item (engagment success : ℕ) : List ℕ :=
  List.replicate success 1 ++ List.replicate (engagment - success) 0

/-- The loop of `get_bernouli_series`: at iteration `i` the pair `(e, s)` is
expanded to `bernouli_item e s`, shuffled by the oracle, and appended. -/
def bernouli_blocks (shuffle : ℕ → List ℕ → List ℕ) : ℕ → List (ℕ × ℕ) → List ℕ
  | _, [] => []
  | i, (e, s) :: rest =>
      shuffle i (bernouli_item e s) ++ bernouli_blocks shuffle (i + 1) rest

/-- `get_bernouli_series(engagment_list, success_list)`: iterate over
`zip(engagment_list, success_list)` accumulating the shuffled per-period
sublists. -/
def get_bernouli_series (shuffle : ℕ → List ℕ → List ℕ)
    (engagment_list success_list : List ℕ) : List ℕ :=
  bernouli_blocks shuffle 0 (engagment_list.zip success_list)

/-! ### Helper lemmas for the Bernoulli-series synthesizer -/

theorem bernouli_item_count_one (e s : ℕ) : (bernouli_item e s).count 1 = s := by
  simp [bernouli_item, List.count_append, List.count_replicate]

theorem bernouli_item_length (e s : ℕ) (h : s ≤ e) : (bernouli_item e s).length = e := by
  simp [bernouli_item]
  omega

theorem bernouli_blocks_count_one (shuffle : ℕ → List ℕ → List ℕ)
    (hp : ∀ i l, (shuffle i l).Perm l) (i : ℕ) (pairs : List (ℕ × ℕ)) :
    (bernouli_blocks shuffle i pairs).count 1 = (pairs.map Prod.snd).sum := by
  induction pairs generalizing i with
  | nil => simp [bernouli_blocks]
  | cons p rest ih =>
      obtain ⟨e, s⟩ := p
      simp [bernouli_blocks, List.count_append, (hp i (bernouli_item e s)).count_eq 1,
        bernouli_item_count_one, ih]

theorem bernouli_blocks_length (shuffle : ℕ → List ℕ → List ℕ)
    (hp : ∀ i l, (shuffle i l).Perm l) (i : ℕ) (pairs : List (ℕ × ℕ))
    (hle : ∀ p ∈ pairs, p.2 ≤ p.1) :
    (bernouli_blocks shuffle i pairs).length = (pairs.map Prod.fst).sum := by
  induction pairs generalizing i with
  | nil => simp [bernouli_blocks]
  | cons p rest ih =>
      obtain ⟨e, s⟩ := p
      have he : s ≤ e := hle (e, s) (List.mem_cons_self _ _)
      simp [bernouli_blocks, (hp i (bernouli_item e s)).length_eq,
        bernouli_item_length e s he, ih i.succ fun q hq => hle q (List.mem_cons_of_mem _ hq)]

theorem bernouli_blocks_take_count (shuffle : ℕ → List ℕ → List ℕ)
    (hp : ∀ i l, (shuffle i l).Perm l) (pairs : List (ℕ × ℕ))
    (hle : ∀ p ∈ pairs, p.2 ≤ p.1) :
    ∀ (i j : ℕ) (hj : j < pairs.length),
      (((bernouli_blocks shuffle i pairs).drop ((pairs.take j).map Prod.fst).sum).take
          (pairs.get ⟨j, hj⟩).1).count 1 = (pairs.get ⟨j, hj⟩).2 := by
  induction pairs with
  | nil => intro i j hj; simp at hj
  | cons p rest ih =>
      obtain ⟨e, s⟩ := p
      have he : s ≤ e := hle (e, s) (List.mem_cons_self _ _)
      intro i j hj
      have hblock : ∀ k, (shuffle k (bernouli_item e s)).length = e := fun k =>
        (hp k (bernouli_item e s)).length_eq.trans (bernouli_item_length e s he)
      match j with
      | 0 =>
          simp only [List.take_zero, List.map_nil, List.sum_nil, List.drop_zero,
            bernouli_blocks, List.get]
          rw [List.take_left' (hblock i), (hp i (bernouli_item e s)).count_eq 1,
            bernouli_item_count_one]
      | Nat.succ j' =>
          have hj' : j' < rest.length := by simpa using hj
          simp only [List.take_succ_cons, List.map_cons, List.sum_cons, bernouli_blocks,
            List.get]
          rw [show e + ((rest.take j').map Prod.fst).sum
                = (shuffle i (bernouli_item e s)).length + ((rest.take j').map Prod.fst).sum
              from by rw [hblock i],
            List.drop_append]
          exact ih (fun q hq => hle q (List.mem_cons_of_mem _ hq)) (i + 1) j' hj'

theorem map_fst_zip_take (el sl : List ℕ) :
    (el.zip sl).map Prod.fst = el.take sl.length := by
  induction el generalizing sl with
  | nil => simp
  | cons e el ih =>
      cases sl with
      | nil => simp
      | cons s sl => simp [ih]

theorem map_snd_zip_take (el sl : List ℕ) :
    (el.zip sl).map Prod.snd = sl.take el.length := by
  induction el generalizing sl with
  | nil => simp
  | cons e el ih =>
      cases sl with
      | nil => simp
      | cons s sl => simp [ih]

/-- C2: for equal-length lists with `successCounts[i] ≤ engagementCounts[i]`
pointwise, and for every outcome of the per-iteration shuffles (any oracle that
permutes its input), `get_bernouli_series` returns a series whose length is
`sum engagementCounts`, whose count of `1`s is `sum successCounts`, and whose
count of `1`s within the contiguous block of period `i` (starting at
`sum (engagementCounts.take i)`, of length `engagementCounts[i]`) is
`successCounts[i]`; blocks appear in index order. -/
theorem get_bernouli_series_spec (shuffle : ℕ → List ℕ → List ℕ)
    (el sl : List ℕ)
    (hp : ∀ i l, (shuffle i l).Perm l)
    (hlen : el.length = sl.length)
    (hle : ∀ p ∈ el.zip sl, p.2 ≤ p.1) :
    (get_bernouli_series shuffle el sl).length = el.sum ∧
    (get_bernouli_series shuffle el sl).count 1 = sl.sum ∧
    ∀ i, ∀ hi : i < el.length,
      (((get_bernouli_series shuffle el sl).drop (el.take i).sum).take el[i]).count 1
        = sl[i] := by
  have hfst : (el.zip sl).map Prod.fst = el := by
    rw [map_fst_zip_take, ← hlen, List.take_length]
  have hsnd : (el.zip sl).map Prod.snd = sl := by
    rw [map_snd_zip_take, hlen, List.take_length]
  refine ⟨?_, ?_, ?_⟩
  · rw [get_bernouli_series, bernouli_blocks_length shuffle hp 0 _ hle, hfst]
  · rw [get_bernouli_series, bernouli_blocks_count_one shuffle hp 0 _, hsnd]
  · intro i hi
    have hzl : i < (el.zip sl).length := by
      rw [List.length_zip]
      omega
    have h1 : ((el.zip sl).get ⟨i, hzl⟩).1 = el[i] := by
      simp [List.getElem_zip]
    have h2 : ((el.zip sl).get ⟨i, hzl⟩).2 = sl[i] := by
      simp [List.getElem_zip]
    have htake : ((el.zip sl).take i).map Prod.fst = el.take i := by
      rw [List.map_take, hfst]
    have := bernouli_blocks_take_count shuffle hp (el.zip sl) hle 0 i hzl
    rw [htake, h1, h2] at this
    exact this

/-- C10: when the two lists differ in length, `get_bernouli_series` does not
fail: `zip` silently truncates to the first `min` of the two lengths, so
(under `success ≤ engagement` on the processed pairs) the series length is the
sum of the engagement counts over just those pairs, and its count of `1`s the
corresponding truncated sum of success counts. -/
theorem get_bernouli_series_truncates (shuffle : ℕ → List ℕ → List ℕ)
    (el sl : List ℕ)
    (hp : ∀ i l, (shuffle i l).Perm l)
    (hle : ∀ p ∈ el.zip sl, p.2 ≤ p.1) :
    (get_bernouli_series shuffle el sl).length = (el.take sl.length).sum ∧
    (get_bernouli_series shuffle el sl).count 1 = (sl.take el.length).sum := by
  constructor
  · rw [get_bernouli_series, bernouli_blocks_length shuffle hp 0 _ hle, map_fst_zip_take]
  · rw [get_bernouli_series, bernouli_blocks_count_one shuffle hp 0 _, map_snd_zip_take]

/-- C2 witness: identity shuffles, `engagementCounts = [10,10]`,
`successCounts = [3,7]`. -/
theorem get_bernouli_series_spec_witness :
    (get_bernouli_series (fun _ l => l) [10, 10] [3, 7]).length = [10, 10].sum ∧
    (get_bernouli_series (fun _ l => l) [10, 10] [3, 7]).count 1 = [3, 7].sum ∧
    ∀ i, ∀ hi : i < ([10, 10] : List ℕ).length,
      (((get_bernouli_series (fun _ l => l) [10, 10] [3, 7]).drop
          (([10, 10] : List ℕ).take i).sum).take ([10, 10] : List ℕ)[i]).count 1
        = ([3, 7] : List ℕ)[i] :=
  get_bernouli_series_spec (fun _ l => l) [10, 10] [3, 7]
    (fun _ l => List.Perm.refl l) rfl (by decide)

/-- C10 witness: `engagementCounts = [2,3,5]`, `successCounts = [1,3]` (shorter):
length is `2 + 3 = 5` and the count of `1`s is `1 + 3 = 4`. -/
theorem get_bernouli_series_truncates_witness :
    (get_bernouli_series (fun _ l => l) [2, 3, 5] [1, 3]).length
      = (([2, 3, 5] : List ℕ).take ([1, 3] : List ℕ).length).sum ∧
    (get_bernouli_series (fun _ l => l) [2, 3, 5] [1, 3]).count 1
      = (([1, 3] : List ℕ).take ([2, 3, 5] : List ℕ).length).sum :=
  get_bernouli_series_truncates (fun _ l => l) [2, 3, 5] [1, 3]
    (fun _ l => List.Perm.refl l) (by decide)

/-! ### Pooled statistics -/

/-- C3: `pooled_prob` returns exactly `(X_A + X_B) / (N_A + N_B)` when the
total size is nonzero, fails on a zero total size, lies in `[0,1]` for every
valid pair of Samples, and maps `(1000, 1000, 100, 120)` to `0.11`. -/
theorem pooled_prob_spec (N_A N_B X_A X_B : ℚ) :
    (N_A + N_B ≠ 0 →
      pooled_prob N_A N_B X_A X_B = some ((X_A + X_B) / (N_A + N_B))) ∧
    (N_A + N_B = 0 → pooled_prob N_A N_B X_A X_B = none) ∧
    (0 < N_A → 0 < N_B → 0 ≤ X_A → X_A ≤ N_A → 0 ≤ X_B → X_B ≤ N_B →
      ∃ p, pooled_prob N_A N_B X_A X_B = some p ∧ 0 ≤ p ∧ p ≤ 1) ∧
    pooled_prob 1000 1000 100 120 = some (11 / 100) := by
  refine ⟨fun h => ?_, fun h => ?_, fun hNA hNB hXA hXAN hXB hXBN => ?_, ?_⟩
  · simp [pooled_prob, safeDiv, h]
  · simp [pooled_prob, safeDiv, h]
  · have hN : 0 < N_A + N_B := by linarith
    refine ⟨(X_A + X_B) / (N_A + N_B), by simp [pooled_prob, safeDiv, hN.ne'], ?_, ?_⟩
    · exact div_nonneg (by linarith) hN.le
    · rw [div_le_one hN]
      linarith
  · norm_num [pooled_prob, safeDiv]

/-- C3 witness: the valid Sample pair `(1000, 1000, 100, 120)` yields a pooled
probability in `[0,1]`. -/
theorem pooled_prob_spec_witness :
    ∃ p, pooled_prob 1000 1000 100 120 = some p ∧ 0 ≤ p ∧ p ≤ 1 :=
  (pooled_prob_spec 1000 1000 100 120).2.2.1 (by norm_num) (by norm_num)
    (by norm_num) (by norm_num) (by norm_num) (by norm_num)

/-- C9: `pooled_SE` is symmetric under swapping the two samples
`(N_A, X_A) ↔ (N_B, X_B)`, for any model of `np.sqrt` and all inputs
(including the failing ones, which fail on both sides alike). -/
theorem pooled_SE_symm (sqrt : ℚ → ℚ) (N_A N_B X_A X_B : ℚ) :
    pooled_SE sqrt N_A N_B X_A X_B = pooled_SE sqrt N_B N_A X_B X_A := by
  unfold pooled_SE pooled_prob safeDiv
  rw [add_comm N_B N_A, add_comm X_B X_A]
  rcases eq_or_ne (N_A + N_B) 0 with h | h <;>
    rcases eq_or_ne N_A 0 with hA | hA <;>
      rcases eq_or_ne N_B 0 with hB | hB <;>
        simp [h, hA, hB]
  all_goals exact congrArg (fun x => sqrt x) (by ring)

/-! ### Interval estimator: z-value lookup -/

/-- C8: `z_val` looks the abstract standard-normal quantile `ppf` up at area
`1 - sigLevel/2` (two-tailed) or `1 - sigLevel` (one-tailed); consequently,
for any `ppf` matching the standard-normal quantile to within `10⁻⁶` at
`0.975` (value `1.959964`) and at `0.95` (value `1.6448536`),
`z_val(0.05, true)` is within `10⁻³` of `1.95996` and `z_val(0.10, true)`
within `10⁻³` of `1.64485`. -/
theorem z_val_spec (ppf : ℚ → ℚ)
    (h975 : |ppf (39 / 40) - 1959964 / 1000000| ≤ 1 / 1000000)
    (h95 : |ppf (19 / 20) - 16448536 / 10000000| ≤ 1 / 1000000) :
    (∀ s, z_val ppf s true = ppf (1 - s / 2)) ∧
    (∀ s, z_val ppf s false = ppf (1 - s)) ∧
    |z_val ppf (1 / 20) true - 195996 / 100000| ≤ 1 / 1000 ∧
    |z_val ppf (1 / 10) true - 164485 / 100000| ≤ 1 / 1000 := by
  refine ⟨fun s => rfl, fun s => rfl, ?_, ?_⟩
  · have h : z_val ppf (1 / 20) true = ppf (39 / 40) := by norm_num [z_val]
    rw [h]
    calc |ppf (39 / 40) - 195996 / 100000|
        ≤ |ppf (39 / 40) - 1959964 / 1000000| + |1959964 / 1000000 - 195996 / 100000| :=
          abs_sub_le _ _ _
      _ ≤ 1 / 1000 := by rw [show |(1959964 : ℚ) / 1000000 - 195996 / 100000| = 4 / 1000000
            from by norm_num [abs_of_nonneg]]; linarith
  · have h : z_val ppf (1 / 10) true = ppf (19 / 20) := by norm_num [z_val]
    rw [h]
    calc |ppf (19 / 20) - 164485 / 100000|
        ≤ |ppf (19 / 20) - 16448536 / 10000000| + |16448536 / 10000000 - 164485 / 100000| :=
          abs_sub_le _ _ _
      _ ≤ 1 / 1000 := by rw [show |(16448536 : ℚ) / 10000000 - 164485 / 100000| = 36 / 10000000
            from by norm_num [abs_of_nonneg]]; linarith

/-- C8 witness: a concrete quantile oracle matching the standard normal at the
two probed areas. -/
theorem z_val_spec_witness :
    |z_val (fun p => if p = 39 / 40 then 1959964 / 1000000 else 16448536 / 10000000)
        (1 / 20) true - 195996 / 100000| ≤ 1 / 1000 ∧
    |z_val (fun p => if p = 39 / 40 then 1959964 / 1000000 else 16448536 / 10000000)
        (1 / 10) true - 164485 / 100000| ≤ 1 / 1000 :=
  ⟨(z_val_spec _ (by norm_num) (by norm_num)).2.2.1,
   (z_val_spec _ (by norm_num) (by norm_num)).2.2.2⟩

/-! ### Distribution constructor -/

/-- C5: `ab_dist` yields a normal distribution with mean `0` for
`group_type = "control"`, mean `d_hat` for `group_type = "test"`, standard
deviation `stderr` in both cases, and fails on every other `group_type`. -/
theorem ab_dist_spec (stderr d_hat : ℚ) (g : String) :
    ab_dist stderr d_hat "control" = some ⟨0, stderr⟩ ∧
    ab_dist stderr d_hat "test" = some ⟨d_hat, stderr⟩ ∧
    (g ≠ "control" → g ≠ "test" → ab_dist stderr d_hat g = none) := by
  refine ⟨rfl, rfl, fun h1 h2 => ?_⟩
  simp [ab_dist, h1, h2]

/-- C5 witness: concrete parameters, with the unsupported `group_type`
`"other"` failing. -/
theorem ab_dist_spec_witness :
    ab_dist 1 2 "control" = some ⟨0, 1⟩ ∧
    ab_dist 1 2 "test" = some ⟨2, 1⟩ ∧
    ab_dist 1 2 "other" = none :=
  ⟨(ab_dist_spec 1 2 "other").1, (ab_dist_spec 1 2 "other").2.1,
   (ab_dist_spec 1 2 "other").2.2 (by decide) (by decide)⟩

/-! ### Sample-size planner -/

/-- Helper: the value of `min_sample_size` on a nonzero `mde`. -/
theorem min_sample_size_eq (ppf : ℚ → ℚ) (bcr mde power sig_level : ℚ)
    (h : mde ≠ 0) :
    min_sample_size ppf bcr mde power sig_level =
      some (2 * ((bcr + (bcr + mde)) / 2) * (1 - (bcr + (bcr + mde)) / 2) *
        (ppf power + ppf (1 - sig_level / 2)) ^ 2 / mde ^ 2) := by
  rw [min_sample_size, safeDiv, if_neg (pow_ne_zero 2 h)]
  congr 2
  ring

/-- C1: for `mde ≠ 0`, `min_sample_size` returns
`2 * pooledP * (1 - pooledP) * (Z_beta + Z_alpha)^2 / mde^2` with
`pooledP = (bcr + (bcr + mde)) / 2`, `Z_beta = ppf power` and
`Z_alpha = ppf (1 - sigLevel/2)`; for `mde = 0` the division by zero makes the
computation fail. -/
theorem min_sample_size_spec (ppf : ℚ → ℚ) (bcr mde power sig_level : ℚ) :
    (mde ≠ 0 →
      min_sample_size ppf bcr mde power sig_level =
        some (2 * ((bcr + (bcr + mde)) / 2) * (1 - (bcr + (bcr + mde)) / 2) *
          (ppf power + ppf (1 - sig_level / 2)) ^ 2 / mde ^ 2)) ∧
    (mde = 0 → min_sample_size ppf bcr mde power sig_level = none) := by
  constructor
  · exact min_sample_size_eq ppf bcr mde power sig_level
  · intro h
    simp [min_sample_size, safeDiv, h]

/-- C1 witness: a concrete quantile oracle and parameters, with `mde = 1/2`
well defined and `mde = 0` failing. -/
theorem min_sample_size_spec_witness :
    min_sample_size (fun _ => 1) (1 / 4) (1 / 2) (4 / 5) (1 / 20) =
      some (2 * ((1 / 4 + (1 / 4 + 1 / 2)) / 2) * (1 - (1 / 4 + (1 / 4 + 1 / 2)) / 2) *
        ((1 : ℚ) + 1) ^ 2 / (1 / 2) ^ 2) ∧
    min_sample_size (fun _ => 1) (1 / 4) 0 (4 / 5) (1 / 20) = none :=
  ⟨(min_sample_size_spec (fun _ => 1) (1 / 4) (1 / 2) (4 / 5) (1 / 20)).1 (by norm_num),
   (min_sample_size_spec (fun _ => 1) (1 / 4) 0 (4 / 5) (1 / 20)).2 rfl⟩

/-- C4: the first `min_sample_size` definition (shadowed) and the second
(shadowing) one are extensionally equal on every input, so the module behaves
as a single canonical implementation. -/
theorem min_sample_size_duplicate (ppf : ℚ → ℚ) (bcr mde power sig_level : ℚ) :
    min_sample_size' ppf bcr mde power sig_level =
      min_sample_size ppf bcr mde power sig_level := rfl

/-- The bracket positivity behind strict antitonicity of the sample-size
formula: with `A = 2*bcr`, the cross-multiplied difference is positive. -/
theorem min_sample_size_core (A m₁ m₂ : ℚ) (hA : 0 < A) (h1 : 0 < m₁)
    (h12 : m₁ < m₂) (h2 : A + 2 * m₂ < 2) :
    (A + m₂) * (2 - A - m₂) * m₁ ^ 2 < (A + m₁) * (2 - A - m₁) * m₂ ^ 2 := by
  nlinarith [mul_pos h1 (sub_pos.2 h12), mul_pos hA (mul_pos h1 (h1.trans h12)),
    mul_pos (mul_pos hA (sub_pos.2 h12)) (h1.trans h12),
    mul_pos (mul_pos hA (add_pos h1 (h1.trans h12))) (by linarith : (0:ℚ) < 2 - A - 2 * m₂),
    mul_pos h1 (h1.trans h12), sq_nonneg (m₂ - m₁), sq_nonneg (m₂ + m₁)]

/-- C7: with `bcr` and `bcr + mde` in `(0,1)` and a nonzero combined z-value,
`min_sample_size` is strictly decreasing in `mde` on `mde > 0` (holding `bcr`,
`power`, `sigLevel` fixed), and is invariant under `mde → -mde` combined with
the corresponding baseline shift `bcr → bcr + mde`. -/
theorem min_sample_size_antitone (ppf : ℚ → ℚ) (bcr power sig_level m₁ m₂ : ℚ)
    (hK : ppf power + ppf (1 - sig_level / 2) ≠ 0)
    (hb0 : 0 < bcr) (h1 : 0 < m₁) (h12 : m₁ < m₂) (h2 : bcr + m₂ < 1) :
    (∃ n₁ n₂, min_sample_size ppf bcr m₁ power sig_level = some n₁ ∧
      min_sample_size ppf bcr m₂ power sig_level = some n₂ ∧ n₂ < n₁) ∧
    ∀ b m : ℚ, min_sample_size ppf b m power sig_level =
      min_sample_size ppf (b + m) (-m) power sig_level := by
  constructor
  · have hK2 : 0 < (ppf power + ppf (1 - sig_level / 2)) ^ 2 :=
      lt_of_le_of_ne (sq_nonneg _) (Ne.symm (pow_ne_zero 2 hK))
    refine ⟨_, _, min_sample_size_eq ppf bcr m₁ power sig_level h1.ne',
      min_sample_size_eq ppf bcr m₂ power sig_level (by linarith), ?_⟩
    rw [div_lt_div_iff₀ (pow_pos (h1.trans h12) 2) (pow_pos h1 2)]
    nlinarith [mul_lt_mul_of_pos_left
      (min_sample_size_core (2 * bcr) m₁ m₂ (by linarith) h1 h12 (by linarith)) hK2]
  · intro b m
    simp only [min_sample_size]
    rw [show b + m + (b + m) + -m = b + b + m from by ring, show (-m) ^ 2 = m ^ 2 from by ring]

/-- C7 witness: `ppf ≡ 1`, `bcr = 1/4`, effect sizes `1/8 < 1/4`, with the
smaller effect demanding the strictly larger sample size. -/
theorem min_sample_size_antitone_witness :
    (∃ n₁ n₂, min_sample_size (fun _ => 1) (1 / 4) (1 / 8) (4 / 5) (1 / 20) = some n₁ ∧
      min_sample_size (fun _ => 1) (1 / 4) (1 / 4) (4 / 5) (1 / 20) = some n₂ ∧ n₂ < n₁) ∧
    ∀ b m : ℚ, min_sample_size (fun _ => 1) b m (4 / 5) (1 / 20) =
      min_sample_size (fun _ => 1) (b + m) (-m) (4 / 5) (1 / 20) :=
  min_sample_size_antitone (fun _ => 1) (1 / 4) (4 / 5) (1 / 20) (1 / 8) (1 / 4)
    (by norm_num) (by norm_num) (by norm_num) (by norm_num) (by norm_num)

/-! ### Hypothesis tester -/

/-- C6: with positive sample sizes, `p_A ∈ (0,1)`, a model of `np.sqrt`
positive on positive inputs, and a survival function with `sf 0 = 1/2`,
a zero assumed effect gives a zero z-score and a p-value of exactly `1/2`. -/
theorem p_val_zero_effect (sqrt sf : ℚ → ℚ) (N_A N_B p_A : ℚ)
    (hsqrt : ∀ x, 0 < x → 0 < sqrt x)
    (hsf : sf 0 = 1 / 2)
    (hA : 0 < N_A) (hB : 0 < N_B) (hp0 : 0 < p_A) (hp1 : p_A < 1) :
    p_val sqrt sf N_A N_B p_A 0 = some (1 / 2) := by
  have ha : 0 < p_A * (1 - p_A) / N_A := div_pos (mul_pos hp0 (by linarith)) hA
  have hb : 0 < (p_A + 0) * (1 - (p_A + 0)) / N_B :=
    div_pos (mul_pos (by linarith) (by linarith)) hB
  have hsum : 0 < sqrt (p_A * (1 - p_A) / N_A) ^ 2 + sqrt ((p_A + 0) * (1 - (p_A + 0)) / N_B) ^ 2 := by
    have := hsqrt _ ha
    have := hsqrt _ hb
    positivity
  have hden : sqrt (sqrt (p_A * (1 - p_A) / N_A) ^ 2 + sqrt ((p_A + 0) * (1 - (p_A + 0)) / N_B) ^ 2) ≠ 0 :=
    (hsqrt _ hsum).ne'
  rw [p_val, safeDiv, if_neg hA.ne', Option.bind, safeDiv, if_neg hB.ne', Option.bind,
    safeDiv, if_neg hden, Option.bind, zero_div, hsf]

/-- C6 witness: `sqrt := id`, a survival oracle with `sf 0 = 1/2`, unit sample
sizes and `p_A = 1/2`. -/
theorem p_val_zero_effect_witness :
    p_val (fun x => x) (fun _ => 1 / 2) 1 1 (1 / 2) 0 = some (1 / 2) :=
  p_val_zero_effect (fun x => x) (fun _ => 1 / 2) 1 1 (1 / 2)
    (fun x hx => hx) rfl (by norm_num) (by norm_num) (by norm_num) (by norm_num)

end ABTest
